import Mathlib

/-!
Verification of the oxc code generator (`crates/oxc_codegen/src/lib.rs`) and
lint context (`crates/oxc_linter/src/context.rs`) against their
natural-language specification.

The Rust code is shallowly embedded: the codegen's mutable state becomes a
Lean structure `Codegen`, and each emission method becomes a function
`Codegen → Codegen`. The output byte buffer `code : Vec<u8>` is modelled as a
`List Char`: every byte pushed by the embedded methods is ASCII, and the
source itself reads the buffer back through `chars()` (`peek_nth`), so the
character view is the one the source's own state tests are phrased in.
Buffer positions (`prev_op_end` etc.) are modelled as character positions.
-/

namespace Oxc

/-! ## Operator classifier (`oxc_syntax::operator`, used by `lib.rs`)

The three operator enums of `oxc_syntax`, wrapped by the codegen's
`Operator` key. Equality is structural, exactly as in the source (the
classifier is a lexical key: prefix and postfix update operators map to the
same value). -/

inductive BinaryOperator where
  | Equality
  | Inequality
  | StrictEquality
  | StrictInequality
  | LessThan
  | LessEqualThan
  | GreaterThan
  | GreaterEqualThan
  | ShiftLeft
  | ShiftRight
  | ShiftRightZeroFill
  | Addition
  | Subtraction
  | Multiplication
  | Division
  | Remainder
  | BitwiseOR
  | BitwiseXOR
  | BitwiseAnd
  | In
  | Instanceof
  | Exponential
  deriving DecidableEq, Repr

inductive UnaryOperator where
  | UnaryNegation
  | UnaryPlus
  | LogicalNot
  | BitwiseNot
  | Typeof
  | Void
  | Delete
  deriving DecidableEq, Repr

inductive UpdateOperator where
  | Increment
  | Decrement
  deriving DecidableEq, Repr

/-- The codegen's operator key (`crate::operator::Operator`): a tagged value
with three variants wrapping the concrete operator. -/
inductive Operator where
  | Binary : BinaryOperator → Operator
  | Unary : UnaryOperator → Operator
  | Update : UpdateOperator → Operator
  deriving DecidableEq, Repr

/-! ## CodegenOptions -/

/-- Embeds `CodegenOptions` from `lib.rs`. `source_map_path` is modelled as an
optional path string. -/
structure CodegenOptions where
  single_quote : Bool
  minify : Bool
  comments : Bool
  annotation_comments : Bool
  source_map_path : Option String
  deriving DecidableEq, Repr

/-- Embeds `impl Default for CodegenOptions`. -/
def CodegenOptions.default : CodegenOptions :=
  { single_quote := false
    minify := false
    comments := true
    annotation_comments := false
    source_map_path := none }

/-- Embeds `CodegenOptions::print_annotation_comments`:
`!self.minify && (self.comments || self.annotation_comments)`. -/
def CodegenOptions.print_annotation_comments (o : CodegenOptions) : Bool :=
  !o.minify && (o.comments || o.annotation_comments)

/-! ## Codegen state

All state fields of `struct Codegen` that live in `lib.rs` and are read or
written by the methods of `lib.rs` are carried. The external builders
(`comments : CommentsMap`, `mangler`, `sourcemap_builder`,
`binary_expr_stack`) and the borrowed `source_text` do not influence the
byte buffer through any method embedded here (`add_source_mapping` appends
to the separate mapping list of the sourcemap builder, never to `code`), so
they are not carried. -/

structure Codegen where
  options : CodegenOptions
  /-- Output buffer `code : Vec<u8>`, viewed as its characters. -/
  code : List Char
  prev_op_end : Nat
  prev_reg_exp_end : Nat
  need_space_before_dot : Nat
  print_next_indent_as_space : Bool
  needs_semicolon : Bool
  prev_op : Option Operator
  start_of_stmt : Nat
  start_of_arrow_expr : Nat
  start_of_default_export : Nat
  start_of_annotation_comment : Option Nat
  indent : Nat
  quote : Char
  deriving Repr

/-- Embeds `Codegen::new`. -/
def Codegen.new : Codegen :=
  { options := CodegenOptions.default
    code := []
    needs_semicolon := false
    need_space_before_dot := 0
    print_next_indent_as_space := false
    prev_op_end := 0
    prev_reg_exp_end := 0
    prev_op := none
    start_of_stmt := 0
    start_of_arrow_expr := 0
    start_of_default_export := 0
    start_of_annotation_comment := none
    indent := 0
    quote := '"' }

/-- Embeds `Codegen::print_char`: push a single character into the buffer. -/
def Codegen.print_char (s : Codegen) (ch : Char) : Codegen :=
  { s with code := s.code ++ [ch] }

/-- Embeds `Codegen::print_str`: push a string into the buffer. -/
def Codegen.print_str (s : Codegen) (str : String) : Codegen :=
  { s with code := s.code ++ str.data }

/-- Embeds `Codegen::into_source_text`: `String::from_utf8_unchecked(mem::take(&mut self.code))`
— moves the buffer out, leaving it empty. Modelled as state passing: the
returned string together with the post-call state. -/
def Codegen.into_source_text (s : Codegen) : String × Codegen :=
  (String.mk s.code, { s with code := [] })

/-- Embeds `Codegen::code_len`. -/
def Codegen.code_len (s : Codegen) : Nat :=
  s.code.length

/-- Embeds `Codegen::peek_nth`: `chars().nth_back(n)` over the buffer, i.e. the
n-th character counted from the end (0 = last). -/
def Codegen.peek_nth (s : Codegen) (n : Nat) : Option Char :=
  s.code.reverse.get? n

/-- Embeds `Codegen::print_soft_space`: a space, omitted under minify. -/
def Codegen.print_soft_space (s : Codegen) : Codegen :=
  if !s.options.minify then s.print_char ' ' else s

/-- Embeds `Codegen::print_hard_space`: always a space. -/
def Codegen.print_hard_space (s : Codegen) : Codegen :=
  s.print_char ' '

/-- Embeds `Codegen::print_soft_newline`: a newline, omitted under minify. -/
def Codegen.print_soft_newline (s : Codegen) : Codegen :=
  if !s.options.minify then s.print_char '\n' else s

/-- Embeds `Codegen::print_hard_newline`. -/
def Codegen.print_hard_newline (s : Codegen) : Codegen :=
  s.print_char '\n'

/-- Embeds `Codegen::print_semicolon`. -/
def Codegen.print_semicolon (s : Codegen) : Codegen :=
  s.print_char ';'

/-- Embeds `Codegen::print_comma`. -/
def Codegen.print_comma (s : Codegen) : Codegen :=
  s.print_char ','

/-- Embeds `Codegen::indent` (the method): increment depth unless minify. -/
def Codegen.indentInc (s : Codegen) : Codegen :=
  if !s.options.minify then { s with indent := s.indent + 1 } else s

/-- Embeds `Codegen::dedent`: decrement depth unless minify. -/
def Codegen.dedent (s : Codegen) : Codegen :=
  if !s.options.minify then { s with indent := s.indent - 1 } else s

/-- Embeds `Codegen::print_indent`: under minify return immediately; else if the
one-shot `print_next_indent_as_space` flag is set, emit one hard space and
clear it; else emit `indent` tab characters. -/
def Codegen.print_indent (s : Codegen) : Codegen :=
  if s.options.minify then s
  else if s.print_next_indent_as_space then
    { s.print_hard_space with print_next_indent_as_space := false }
  else
    { s with code := s.code ++ List.replicate s.indent '\t' }

/-- Embeds `Codegen::print_semicolon_after_statement`: under minify defer the
semicolon via the `needs_semicolon` flag; otherwise emit `;` and a newline. -/
def Codegen.print_semicolon_after_statement (s : Codegen) : Codegen :=
  if s.options.minify then { s with needs_semicolon := true }
  else s.print_str ";\n"

/-- Embeds `Codegen::print_semicolon_if_needed`. -/
def Codegen.print_semicolon_if_needed (s : Codegen) : Codegen :=
  if s.needs_semicolon then { s.print_semicolon with needs_semicolon := false }
  else s

/-- Embeds `Codegen::add_source_mapping`: appends a mapping to the sourcemap
builder when one is active; never touches the output buffer or any state
field carried here, hence the identity on the embedded state. -/
def Codegen.add_source_mapping (s : Codegen) (_position : Nat) : Codegen :=
  s

/-- Embeds `Codegen::print_curly_braces`: `{`, then unless single-line a soft
newline and indent, the body, then dedent and indentation, then `}`. The
body closure is an arbitrary state transformer, as in the source. -/
def Codegen.print_curly_braces (s : Codegen) (spanStart spanEnd : Nat)
    (single_line : Bool) (op : Codegen → Codegen) : Codegen :=
  let s := s.add_source_mapping spanStart
  let s := s.print_char '{'
  let s := if !single_line then (s.print_soft_newline).indentInc else s
  let s := op s
  let s := if !single_line then (s.dedent).print_indent else s
  let s := s.add_source_mapping spanEnd
  s.print_char '}'

/-- Embeds `Codegen::print_block_statement`: the braces around the block body
(each statement preceded by `print_semicolon_if_needed`), then clear
`needs_semicolon`. The statements' own printers live in `gen.rs` and are
passed in as state transformers. -/
def Codegen.print_block_statement (s : Codegen) (spanStart spanEnd : Nat)
    (body : List (Codegen → Codegen)) : Codegen :=
  let s := s.print_curly_braces spanStart spanEnd body.isEmpty (fun p =>
    body.foldl (fun p printStmt => printStmt p.print_semicolon_if_needed) p)
  { s with needs_semicolon := false }

/-- Embeds `Codegen::print_space_before_operator`: when the buffer still ends at
the end of the previously emitted operator (`prev_op_end == code.len()`)
and that operator is recorded, emit one hard space in the four
token-fusion cases. -/
def Codegen.print_space_before_operator (s : Codegen) (next : Operator) : Codegen :=
  if s.prev_op_end ≠ s.code.length then s
  else
    match s.prev_op with
    | none => s
    | some prev =>
      let bin_op_add := Operator.Binary BinaryOperator.Addition
      let bin_op_sub := Operator.Binary BinaryOperator.Subtraction
      let un_op_pos := Operator.Unary UnaryOperator.UnaryPlus
      let un_op_pre_inc := Operator.Update UpdateOperator.Increment
      let un_op_neg := Operator.Unary UnaryOperator.UnaryNegation
      let un_op_pre_dec := Operator.Update UpdateOperator.Decrement
      let un_op_post_dec := Operator.Update UpdateOperator.Decrement
      let bin_op_gt := Operator.Binary BinaryOperator.GreaterThan
      let un_op_not := Operator.Unary UnaryOperator.LogicalNot
      if ((prev == bin_op_add || prev == un_op_pos)
            && (next == bin_op_add || next == un_op_pos || next == un_op_pre_inc))
          || ((prev == bin_op_sub || prev == un_op_neg)
            && (next == bin_op_sub || next == un_op_neg || next == un_op_pre_dec))
          || (prev == un_op_post_dec && next == bin_op_gt)
          || (prev == un_op_not && next == un_op_pre_dec && s.peek_nth 1 == some '<')
      then s.print_hard_space
      else s

/-! ## Lint context (`crates/oxc_linter/src/context.rs`)

`LintContext` is embedded with the fields its diagnostic path reads or
writes. The semantic handle, file path and resolved configuration are
opaque to that path; `file_path` is carried as a string, the rest are
dropped. The disable-directive index (built by the external
`DisableDirectivesBuilder`) is modelled as its `contains` query, a
function from rule name and span to `Bool`. The `RefCell` around the
diagnostics vector is interior mutability under a single-threaded driver;
in the embedding the vector is an ordinary field threaded through states. -/

/-- Embeds `oxc_diagnostics::Severity`. -/
inductive Severity where
  | Advice
  | Warning
  | Error
  deriving DecidableEq, Repr

/-- Embeds `oxc_span::Span`: half-open byte range. `end` is a Lean keyword, so
the second field is named `endPos`. -/
structure Span where
  start : Nat
  endPos : Nat
  deriving DecidableEq, Repr

/-- Embeds `OxcDiagnostic`: severity, message, and the primary labeled span. -/
structure OxcDiagnostic where
  message : String
  severity : Severity
  span : Span
  deriving DecidableEq, Repr

/-- Embeds `OxcDiagnostic::with_severity`. -/
def OxcDiagnostic.with_severity (d : OxcDiagnostic) (severity : Severity) : OxcDiagnostic :=
  { d with severity := severity }

/-- A `Fix`: a target byte range in the original source and replacement
text. -/
structure Fix where
  span : Span
  content : String
  deriving DecidableEq, Repr

/-- Embeds `fixer::Message`: a diagnostic plus an optional fix. -/
structure Message where
  error : OxcDiagnostic
  fix : Option Fix
  deriving DecidableEq, Repr

/-- Embeds `Message::new`. -/
def Message.new (error : OxcDiagnostic) (fix : Option Fix) : Message :=
  { error := error, fix := fix }

/-- Embeds `Message::span`: the primary labeled span of the wrapped diagnostic. -/
def Message.span (m : Message) : Span :=
  m.error.span

structure LintContext where
  /-- Append-only vector of reported messages. -/
  diagnostics : List Message
  /-- The disable-directive index, as its `contains(rule_name, span)` query. -/
  disable_directives : String → Span → Bool
  fix : Bool
  file_path : String
  current_rule_name : String
  severity : Severity

/-- Embeds `LintContext::new` (the parts visible to the diagnostic path): empty
diagnostics, fix mode off, empty rule name, severity defaulting to
warning. The directive index is built externally from the source text and
comment list and is passed in as its query function. -/
def LintContext.new (file_path : String) (disable_directives : String → Span → Bool) :
    LintContext :=
  { diagnostics := []
    disable_directives := disable_directives
    fix := false
    file_path := file_path
    current_rule_name := ""
    severity := Severity.Warning }

/-- Embeds `LintContext::with_fix`. -/
def LintContext.with_fix (c : LintContext) (fix : Bool) : LintContext :=
  { c with fix := fix }

/-- Embeds `LintContext::with_rule_name`. -/
def LintContext.with_rule_name (c : LintContext) (name : String) : LintContext :=
  { c with current_rule_name := name }

/-- Embeds `LintContext::with_severity`: `self.severity = Severity::from(severity)`.
The argument is an `AllowWarnDeny` in the source; the `From` conversion
lives outside `src/`, so the method is modelled as receiving the converted
`Severity` directly. -/
def LintContext.with_severity (c : LintContext) (severity : Severity) : LintContext :=
  { c with severity := severity }

/-- Embeds `LintContext::into_message`: the accumulated diagnostics as a flat
vector. -/
def LintContext.into_message (c : LintContext) : List Message :=
  c.diagnostics

/-- Embeds `LintContext::add_diagnostic`: consult the disable-directive index
with the current rule name and the message's span; when not suppressed,
override the message's severity if it differs from the context's, then
append. When suppressed, do nothing. -/
def LintContext.add_diagnostic (c : LintContext) (message : Message) : LintContext :=
  if !(c.disable_directives c.current_rule_name message.span) then
    let message :=
      if message.error.severity ≠ c.severity then
        { message with error := message.error.with_severity c.severity }
      else message
    { c with diagnostics := c.diagnostics ++ [message] }
  else c

/-- Embeds `LintContext::diagnostic`: report with no fix. -/
def LintContext.diagnostic (c : LintContext) (diagnostic : OxcDiagnostic) : LintContext :=
  c.add_diagnostic (Message.new diagnostic none)

/-- Embeds `LintContext::diagnostic_with_fix`: when fix mode is on, invoke the
fix closure and attach the normalized result; otherwise behave as
`diagnostic`. The closure and the normalization against the source text
are external; the normalized composite fix is passed in directly. -/
def LintContext.diagnostic_with_fix (c : LintContext) (diagnostic : OxcDiagnostic)
    (fix : Fix) : LintContext :=
  if c.fix then c.add_diagnostic (Message.new diagnostic (some fix))
  else c.diagnostic diagnostic

/-- Fold a sequence of `diagnostic` reports over a context. -/
def LintContext.reportAll (c : LintContext) (ds : List OxcDiagnostic) : LintContext :=
  ds.foldl (fun c d => c.diagnostic d) c

/-! ## The implements-on-classes rule
(`crates/oxc_linter/src/rules/jsdoc/implements_on_classes.rs`) -/

/-- A JSDoc tag as the rule reads it: `tag.kind.parsed()` and
`tag.kind.span`. A JSDoc comment is its list of tags. -/
structure JSDocTag where
  parsed : String
  span : Span
  deriving DecidableEq, Repr

/-- Embeds `ImplementsOnClassesDiagnostic(span)`: warning-severity diagnostic
labeled at the offending tag span. -/
def implementsOnClassesDiagnostic (span : Span) : OxcDiagnostic :=
  { message := "eslint-plugin-jsdoc(implements-on-classes): `@implements` used on a non-constructor function"
    severity := Severity.Warning
    span := span }

/-- The tag scan of `ImplementsOnClasses::run`: over all JSDocs of the
function-definition node, record the span of the last tag whose parsed
name is the resolved implements tag name, and whether any tag's parsed
name is the resolved class or constructor tag name. -/
def implementsOnClassesScan (jsdocs : List (List JSDocTag))
    (implName clsName ctorName : String) : Option Span × Bool :=
  jsdocs.foldl (fun acc jsdoc =>
    jsdoc.foldl (fun acc tag =>
      let acc1 := if tag.parsed = implName then (some tag.span, acc.2) else acc
      if tag.parsed = clsName ∨ tag.parsed = ctorName then (acc1.1, true) else acc1)
      acc)
    (none, false)

/-- Embeds `ImplementsOnClasses::run`: fetching the JSDocs of the
function-definition node and resolving the three tag names are external
(`get_function_definition_node`, `ctx.jsdoc()`, settings); the resolved
inputs are passed in. A diagnostic is reported exactly when an implements
tag was found and no class or constructor tag was. -/
def implementsOnClassesRun (jsdocs : List (List JSDocTag))
    (implName clsName ctorName : String) (ctx : LintContext) : LintContext :=
  match implementsOnClassesScan jsdocs implName clsName ctorName with
  | (some span, false) => ctx.diagnostic (implementsOnClassesDiagnostic span)
  | _ => ctx

/-! ## Byte-level output discipline (for the UTF-8 invariant)

The emitter proper (`gen.rs` and the escape printers) is not under `src/`;
what `src/` shows is `print_char`/`print_str` and the
`String::from_utf8_unchecked` in `into_source_text`. The write discipline
the specification states for the buffer is modelled at the byte level
below. -/

/-- The byte-level state machine of strict UTF-8 (RFC 3629). The state is
`(k, lo, hi)`: `k` continuation bytes are still expected and the next one
must lie in `[lo, hi]`; later continuation bytes must lie in
`[0x80, 0xBF]`. `k = 0` is the lead state (the range is then unused). The
lead-byte table excludes overlong forms (`0xC0`, `0xC1`, and the
restricted ranges after `0xE0`/`0xF0`), surrogates (restricted range
after `0xED`) and code points beyond U+10FFFF (restricted range after
`0xF4`). -/
def utf8Accum : List Nat → Nat × Nat × Nat → Bool
  | [], (k, _, _) => k == 0
  | b :: t, (0, _, _) =>
    if b < 0x80 then utf8Accum t (0, 0, 0)
    else if 0xC2 ≤ b ∧ b ≤ 0xDF then utf8Accum t (1, 0x80, 0xBF)
    else if b = 0xE0 then utf8Accum t (2, 0xA0, 0xBF)
    else if b = 0xED then utf8Accum t (2, 0x80, 0x9F)
    else if 0xE1 ≤ b ∧ b ≤ 0xEF then utf8Accum t (2, 0x80, 0xBF)
    else if b = 0xF0 then utf8Accum t (3, 0x90, 0xBF)
    else if 0xF1 ≤ b ∧ b ≤ 0xF3 then utf8Accum t (3, 0x80, 0xBF)
    else if b = 0xF4 then utf8Accum t (3, 0x80, 0x8F)
    else false
  | b :: t, (k + 1, lo, hi) =>
    if lo ≤ b ∧ b ≤ hi then utf8Accum t (k, 0x80, 0xBF) else false

/-- Strict UTF-8 validity of a byte sequence: the state machine run from
the lead state accepts. -/
def utf8Valid (l : List Nat) : Bool :=
  utf8Accum l (0, 0, 0)

/-- Modelled from the spec: the three kinds of write the codegen performs
on its output buffer — "every write is either an ASCII byte, a borrowed
UTF-8 slice, or a validated escape sequence". The emitters that issue
the writes (`gen.rs`) are outside `src/`. -/
inductive CodegenWrite where
  | asciiByte (b : Nat)
  | utf8Slice (bytes : List Nat)
  | escapeSeq (bytes : List Nat)
  deriving DecidableEq, Repr

/-- The bytes a write appends to the buffer. -/
def CodegenWrite.bytes : CodegenWrite → List Nat
  | asciiByte b => [b]
  | utf8Slice bs => bs
  | escapeSeq bs => bs

/-- Well-formedness of a write, as the spec's invariant states it: an
ASCII byte is below `0x80`; a borrowed slice is valid UTF-8; a validated
escape sequence consists of ASCII bytes. -/
def CodegenWrite.ok : CodegenWrite → Bool
  | asciiByte b => decide (b < 0x80)
  | utf8Slice bs => utf8Valid bs
  | escapeSeq bs => bs.all (fun b => decide (b < 0x80))

/-- The buffer produced by a build: the write trace folded over the
initially empty buffer. -/
def runWrites (ws : List CodegenWrite) : List Nat :=
  ws.foldl (fun buf w => buf ++ w.bytes) []

/-- The lead state of the UTF-8 machine ignores its range component. -/
theorem utf8Accum_lead (l : List Nat) (lo hi lo2 hi2 : Nat) :
    utf8Accum l (0, lo, hi) = utf8Accum l (0, lo2, hi2) := by
  cases l <;> rfl

/-- Running the UTF-8 machine over a concatenation: if the first part is
accepted from some state and the second is valid from the lead state, the
concatenation is accepted from that state. -/
theorem utf8Accum_append (xs : List Nat) : ∀ (ys : List Nat) (k lo hi : Nat),
    utf8Accum xs (k, lo, hi) = true → utf8Valid ys = true →
    utf8Accum (xs ++ ys) (k, lo, hi) = true := by
  induction xs with
  | nil =>
    intro ys k lo hi hx hy
    have hk : k = 0 := by simpa [utf8Accum] using hx
    subst hk
    rw [List.nil_append, utf8Accum_lead ys lo hi 0 0]
    exact hy
  | cons b t ih =>
    intro ys k lo hi hx hy
    rw [List.cons_append]
    cases k with
    | zero =>
      unfold utf8Accum at hx ⊢
      by_cases h1 : b < 0x80
      · rw [if_pos h1] at hx ⊢
        exact ih ys 0 0 0 hx hy
      · rw [if_neg h1] at hx ⊢
        by_cases h2 : 0xC2 ≤ b ∧ b ≤ 0xDF
        · rw [if_pos h2] at hx ⊢
          exact ih ys 1 0x80 0xBF hx hy
        · rw [if_neg h2] at hx ⊢
          by_cases h3 : b = 0xE0
          · rw [if_pos h3] at hx ⊢
            exact ih ys 2 0xA0 0xBF hx hy
          · rw [if_neg h3] at hx ⊢
            by_cases h4 : b = 0xED
            · rw [if_pos h4] at hx ⊢
              exact ih ys 2 0x80 0x9F hx hy
            · rw [if_neg h4] at hx ⊢
              by_cases h5 : 0xE1 ≤ b ∧ b ≤ 0xEF
              · rw [if_pos h5] at hx ⊢
                exact ih ys 2 0x80 0xBF hx hy
              · rw [if_neg h5] at hx ⊢
                by_cases h6 : b = 0xF0
                · rw [if_pos h6] at hx ⊢
                  exact ih ys 3 0x90 0xBF hx hy
                · rw [if_neg h6] at hx ⊢
                  by_cases h7 : 0xF1 ≤ b ∧ b ≤ 0xF3
                  · rw [if_pos h7] at hx ⊢
                    exact ih ys 3 0x80 0xBF hx hy
                  · rw [if_neg h7] at hx ⊢
                    by_cases h8 : b = 0xF4
                    · rw [if_pos h8] at hx ⊢
                      exact ih ys 3 0x80 0x8F hx hy
                    · rw [if_neg h8] at hx ⊢
                      exact absurd hx Bool.false_ne_true
    | succ k =>
      unfold utf8Accum at hx ⊢
      by_cases h1 : lo ≤ b ∧ b ≤ hi
      · rw [if_pos h1] at hx ⊢
        exact ih ys k 0x80 0xBF hx hy
      · rw [if_neg h1] at hx ⊢
        exact absurd hx Bool.false_ne_true

/-- Concatenating two valid UTF-8 byte sequences yields a valid UTF-8
byte sequence. -/
theorem utf8Valid_append (xs ys : List Nat) (hx : utf8Valid xs = true)
    (hy : utf8Valid ys = true) : utf8Valid (xs ++ ys) = true :=
  utf8Accum_append xs ys 0 0 0 hx hy

/-- A sequence of ASCII bytes is valid UTF-8. -/
theorem utf8Valid_ascii (bs : List Nat) (h : ∀ b ∈ bs, b < 0x80) :
    utf8Valid bs = true := by
  induction bs with
  | nil => rfl
  | cons b t ih =>
    show utf8Accum (b :: t) (0, 0, 0) = true
    unfold utf8Accum
    rw [if_pos (h b (List.Mem.head _))]
    exact ih (fun x hx => h x (List.Mem.tail _ hx))

/-- Every well-formed write appends a valid UTF-8 byte sequence. -/
theorem writeBytes_valid (w : CodegenWrite) (hw : w.ok = true) :
    utf8Valid w.bytes = true := by
  cases w with
  | asciiByte b =>
    refine utf8Valid_ascii [b] ?_
    intro x hx
    rw [List.mem_singleton] at hx
    subst hx
    exact of_decide_eq_true hw
  | utf8Slice bs => exact hw
  | escapeSeq bs =>
    refine utf8Valid_ascii bs ?_
    intro x hx
    rw [CodegenWrite.ok, List.all_eq_true] at hw
    exact of_decide_eq_true (hw x hx)

/-! ## Claim-side predicates -/

/-- The four token-fusion cases enumerated by claim C2, written from the
claim's words. `charBeforePrev` is the character in the buffer immediately
before the previously emitted one-character operator (the buffer's
second-from-last character, obtained by `peek_nth 1`). The operator
classifier does not distinguish prefix from postfix update operators, so
"prefix ++", "prefix --" and "postfix --" all denote the corresponding
`Update` value. -/
def spaceBeforeOperatorCases (prev next : Operator) (charBeforePrev : Option Char) : Prop :=
  ((prev = Operator.Binary BinaryOperator.Addition ∨ prev = Operator.Unary UnaryOperator.UnaryPlus) ∧
     (next = Operator.Binary BinaryOperator.Addition ∨ next = Operator.Unary UnaryOperator.UnaryPlus ∨
      next = Operator.Update UpdateOperator.Increment))
  ∨ ((prev = Operator.Binary BinaryOperator.Subtraction ∨ prev = Operator.Unary UnaryOperator.UnaryNegation) ∧
     (next = Operator.Binary BinaryOperator.Subtraction ∨ next = Operator.Unary UnaryOperator.UnaryNegation ∨
      next = Operator.Update UpdateOperator.Decrement))
  ∨ (prev = Operator.Update UpdateOperator.Decrement ∧ next = Operator.Binary BinaryOperator.GreaterThan)
  ∨ (prev = Operator.Unary UnaryOperator.LogicalNot ∧ next = Operator.Update UpdateOperator.Decrement ∧
     charBeforePrev = some '<')

instance (prev next : Operator) (c : Option Char) :
    Decidable (spaceBeforeOperatorCases prev next c) := by
  unfold spaceBeforeOperatorCases
  infer_instance

/-- The full condition of claim C2: the output buffer length equals
`prev_op_end`, a previous operator is recorded, and one of the four fusion
cases holds. -/
def spaceBeforeOperatorCond (s : Codegen) (next : Operator) : Prop :=
  s.prev_op_end = s.code.length ∧
    match s.prev_op with
    | none => False
    | some prev => spaceBeforeOperatorCases prev next (s.peek_nth 1)

instance (s : Codegen) (next : Operator) : Decidable (spaceBeforeOperatorCond s next) := by
  unfold spaceBeforeOperatorCond
  cases s.prev_op <;> exact inferInstance

/-! ## Theorems -/

/-- The Boolean fusion test inside `print_space_before_operator` holds
exactly when the claim's four cases hold. -/
theorem spaceBeforeOperator_bool_iff (prev next : Operator) (c : Option Char) :
    (((prev == Operator.Binary BinaryOperator.Addition || prev == Operator.Unary UnaryOperator.UnaryPlus)
        && (next == Operator.Binary BinaryOperator.Addition || next == Operator.Unary UnaryOperator.UnaryPlus
            || next == Operator.Update UpdateOperator.Increment))
      || ((prev == Operator.Binary BinaryOperator.Subtraction || prev == Operator.Unary UnaryOperator.UnaryNegation)
        && (next == Operator.Binary BinaryOperator.Subtraction || next == Operator.Unary UnaryOperator.UnaryNegation
            || next == Operator.Update UpdateOperator.Decrement))
      || (prev == Operator.Update UpdateOperator.Decrement && next == Operator.Binary BinaryOperator.GreaterThan)
      || (prev == Operator.Unary UnaryOperator.LogicalNot && next == Operator.Update UpdateOperator.Decrement
          && c == some '<')) = true
      ↔ spaceBeforeOperatorCases prev next c := by
  unfold spaceBeforeOperatorCases
  simp only [Bool.or_eq_true, Bool.and_eq_true, beq_iff_eq]
  tauto

/-- C2: `print_space_before_operator(next)` appends a single hard space to
the buffer exactly when the buffer length equals `prev_op_end`, a previous
operator is recorded, and one of the four enumerated fusion cases holds;
in every other state it changes nothing. -/
theorem print_space_before_operator_characterization (s : Codegen) (next : Operator) :
    s.print_space_before_operator next =
      if spaceBeforeOperatorCond s next then { s with code := s.code ++ [' '] } else s := by
  by_cases hcond : spaceBeforeOperatorCond s next
  · rw [if_pos hcond]
    obtain ⟨hlen, hrest⟩ := hcond
    unfold Codegen.print_space_before_operator
    rw [if_neg (not_not_intro hlen)]
    split
    · next hp => rw [hp] at hrest; exact absurd hrest not_false
    · next prev hp =>
      rw [hp] at hrest
      rw [if_pos ((spaceBeforeOperator_bool_iff prev next (s.peek_nth 1)).mpr hrest)]
      rfl
  · rw [if_neg hcond]
    unfold Codegen.print_space_before_operator
    by_cases hlen : s.prev_op_end = s.code.length
    · rw [if_neg (not_not_intro hlen)]
      split
      · next hp => rfl
      · next prev hp =>
        rw [if_neg]
        intro hbool
        exact hcond ⟨hlen, by
          rw [hp]
          exact (spaceBeforeOperator_bool_iff prev next (s.peek_nth 1)).mp hbool⟩
    · rw [if_pos hlen]

/-- C5: annotation comments are emitted exactly when `minify` is false and
(`comments` or `annotation_comments`) — the gate `print_annotation_comments`
that `build` consults before building the comment map. -/
theorem print_annotation_comments_iff (o : CodegenOptions) :
    o.print_annotation_comments = true ↔
      (o.minify = false ∧ (o.comments = true ∨ o.annotation_comments = true)) := by
  rcases o with ⟨sq, m, c, a, p⟩
  cases m <;> cases c <;> cases a <;>
    simp [CodegenOptions.print_annotation_comments]

/-- C6: `print_semicolon_after_statement` appends nothing and sets
`needs_semicolon` under minify, and appends exactly `;` then a newline
(leaving `needs_semicolon` unchanged) otherwise; `print_block_statement`
always leaves `needs_semicolon` false. -/
theorem semicolon_emission (s : Codegen) (spanStart spanEnd : Nat)
    (body : List (Codegen → Codegen)) :
    (s.options.minify = true →
      s.print_semicolon_after_statement = { s with needs_semicolon := true })
    ∧ (s.options.minify = false →
      s.print_semicolon_after_statement = { s with code := s.code ++ [';', '\n'] })
    ∧ (s.print_block_statement spanStart spanEnd body).needs_semicolon = false := by
  refine ⟨fun hm => ?_, fun hm => ?_, ?_⟩
  · simp [Codegen.print_semicolon_after_statement, hm]
  · simp [Codegen.print_semicolon_after_statement, hm, Codegen.print_str]
  · rfl

/-- Witness for C6 at concrete states: the non-minified default state emits
`;` + newline, and a minified state defers via the flag. -/
theorem semicolon_emission_witness :
    (Codegen.new.print_semicolon_after_statement).code = [';', '\n']
    ∧ ({ Codegen.new with
          options := { CodegenOptions.default with minify := true }
        }.print_semicolon_after_statement).needs_semicolon = true := by
  refine ⟨?_, ?_⟩
  · have h1 := (semicolon_emission Codegen.new 0 0 []).2.1 rfl
    rw [h1]
    rfl
  · have h2 := (semicolon_emission
      { Codegen.new with options := { CodegenOptions.default with minify := true } } 0 0 []).1 rfl
    rw [h2]

/-- C9 counterexample: in a state with `print_next_indent_as_space` set but
`minify` true, `print_indent` returns at the minify check: it emits no
space and does not clear the flag, contradicting the claim's "for every
codegen state in which the flag is set". -/
theorem print_indent_minify_counterexample :
    ({ Codegen.new with
        options := { CodegenOptions.default with minify := true },
        print_next_indent_as_space := true } : Codegen).print_indent.code = []
    ∧ ({ Codegen.new with
        options := { CodegenOptions.default with minify := true },
        print_next_indent_as_space := true } : Codegen).print_indent.print_next_indent_as_space
        = true := by
  exact ⟨rfl, rfl⟩

/-- C9 (amended): in every state with `print_next_indent_as_space` set in
which `minify` is false, the next `print_indent` emits exactly one space
and clears the flag instead of emitting indentation. -/
theorem print_indent_as_space (s : Codegen)
    (hm : s.options.minify = false) (hf : s.print_next_indent_as_space = true) :
    s.print_indent = { s with code := s.code ++ [' '], print_next_indent_as_space := false } := by
  simp [Codegen.print_indent, hm, hf, Codegen.print_hard_space, Codegen.print_char]

/-- Witness for the amended C9 at a concrete state. -/
theorem print_indent_as_space_witness :
    ({ Codegen.new with print_next_indent_as_space := true } : Codegen).print_indent
      = { Codegen.new with code := [' '], print_next_indent_as_space := false } := by
  have h := print_indent_as_space
    { Codegen.new with print_next_indent_as_space := true } rfl rfl
  rw [h]
  rfl

/-- C3: a diagnostic whose (rule, span) pair is in the disable-directive
index is dropped silently: reporting it through `diagnostic` or
`diagnostic_with_fix` leaves the context unchanged, so it does not appear
in `into_message`. -/
theorem diagnostic_suppression (ctx : LintContext) (d : OxcDiagnostic) (f : Fix)
    (h : ctx.disable_directives ctx.current_rule_name d.span = true) :
    ctx.diagnostic d = ctx
    ∧ ctx.diagnostic_with_fix d f = ctx
    ∧ (ctx.diagnostic d).into_message = ctx.into_message := by
  have hadd : ∀ fx : Option Fix, ctx.add_diagnostic (Message.new d fx) = ctx := by
    intro fx
    unfold LintContext.add_diagnostic
    have hc : ctx.disable_directives ctx.current_rule_name (Message.new d fx).span = true := h
    rw [hc]
    rfl
  have hdiag : ctx.diagnostic d = ctx := hadd none
  refine ⟨hdiag, ?_, by rw [hdiag]⟩
  unfold LintContext.diagnostic_with_fix
  cases hf : ctx.fix
  · simp only [Bool.false_eq_true, if_false]
    exact hdiag
  · simp only [if_true]
    exact hadd (some f)

/-- Witness for C3 at a concrete context whose directive index suppresses
everything. -/
theorem diagnostic_suppression_witness :
    (LintContext.new "a.js" (fun _ _ => true)).diagnostic
        { message := "x", severity := Severity.Warning, span := ⟨0, 1⟩ }
      = LintContext.new "a.js" (fun _ _ => true) :=
  (diagnostic_suppression (LintContext.new "a.js" (fun _ _ => true))
    { message := "x", severity := Severity.Warning, span := ⟨0, 1⟩ }
    ⟨⟨0, 1⟩, ""⟩ rfl).1

/-- Embeds `diagnostic` either leaves the context unchanged (suppressed) or
appends exactly the reported diagnostic carrying the context's severity. -/
theorem diagnostic_cases (c : LintContext) (d : OxcDiagnostic) :
    c.diagnostic d = c
    ∨ c.diagnostic d =
        { c with diagnostics :=
            c.diagnostics ++ [Message.new (d.with_severity c.severity) none] } := by
  unfold LintContext.diagnostic LintContext.add_diagnostic
  split
  · right
    by_cases hsev : (Message.new d none).error.severity ≠ c.severity
    · rw [if_pos hsev]
      rfl
    · rw [if_neg hsev]
      rw [not_not] at hsev
      have hd : d.with_severity c.severity = d := by
        rw [← hsev]
        cases d
        rfl
      rw [hd]
  · left
    rfl

/-- Embeds `diagnostic` does not change the configured severity. -/
theorem diagnostic_severity (c : LintContext) (d : OxcDiagnostic) :
    (c.diagnostic d).severity = c.severity := by
  rcases diagnostic_cases c d with h | h <;> rw [h]

/-- Every message present after a `diagnostic` call was either already
present or carries the context's severity. -/
theorem diagnostic_mem_severity (c : LintContext) (d : OxcDiagnostic) (m : Message)
    (hm : m ∈ (c.diagnostic d).diagnostics) :
    m ∈ c.diagnostics ∨ m.error.severity = c.severity := by
  rcases diagnostic_cases c d with h | h <;> rw [h] at hm
  · exact Or.inl hm
  · rcases List.mem_append.mp hm with h2 | h2
    · exact Or.inl h2
    · rw [List.mem_singleton] at h2
      subst h2
      exact Or.inr rfl

/-- Every message present after a sequence of `diagnostic` calls was
either already present or carries the context's severity. -/
theorem reportAll_mem_severity (ds : List OxcDiagnostic) (c : LintContext) (m : Message)
    (hm : m ∈ (c.reportAll ds).diagnostics) :
    m ∈ c.diagnostics ∨ m.error.severity = c.severity := by
  induction ds generalizing c with
  | nil => exact Or.inl hm
  | cons d ds ih =>
    have hm2 : m ∈ ((c.diagnostic d).reportAll ds).diagnostics := hm
    rcases ih (c.diagnostic d) hm2 with h | h
    · exact diagnostic_mem_severity c d m h
    · exact Or.inr (h.trans (diagnostic_severity c d))

/-- C4 counterexample: a diagnostic accumulated before the
`with_severity` call keeps its original severity, so not every message in
`into_message` has the newly configured severity. -/
theorem with_severity_counterexample :
    ∃ m ∈ (((LintContext.new "a.js" (fun _ _ => false)).diagnostic
          { message := "x", severity := Severity.Warning, span := ⟨0, 1⟩ }).with_severity
          Severity.Error).into_message,
      m.error.severity ≠ Severity.Error := by
  refine ⟨{ error := { message := "x", severity := Severity.Warning, span := ⟨0, 1⟩ },
            fix := none }, ?_, by decide⟩
  exact List.Mem.head _

/-- C4 (amended): after `with_severity(S)`, every diagnostic accumulated
afterwards has severity `S`; diagnostics accumulated before the call keep
their severity. -/
theorem with_severity_override (c : LintContext) (S : Severity) (ds : List OxcDiagnostic)
    (m : Message) (hm : m ∈ ((c.with_severity S).reportAll ds).into_message)
    (hnew : m ∉ c.into_message) : m.error.severity = S := by
  rcases reportAll_mem_severity ds (c.with_severity S) m hm with h | h
  · exact absurd h hnew
  · exact h

/-- Witness for the amended C4: one diagnostic reported after
`with_severity(Error)` comes out with severity `Error`. -/
theorem with_severity_override_witness :
    ({ error := { message := "x", severity := Severity.Error, span := ⟨0, 1⟩ },
       fix := none } : Message).error.severity = Severity.Error := by
  exact with_severity_override (LintContext.new "a.js" (fun _ _ => false)) Severity.Error
    [{ message := "x", severity := Severity.Warning, span := ⟨0, 1⟩ }]
    { error := { message := "x", severity := Severity.Error, span := ⟨0, 1⟩ }, fix := none }
    (List.Mem.head _) (by intro h; exact absurd h (List.not_mem_nil _))

/-- The inner tag fold of the scan never clears the class-or-constructor
flag. -/
theorem scan_inner_mono (implName clsName ctorName : String) (tags : List JSDocTag)
    (acc : Option Span × Bool) (h : acc.2 = true) :
    (tags.foldl (fun acc tag =>
      let acc1 := if tag.parsed = implName then (some tag.span, acc.2) else acc
      if tag.parsed = clsName ∨ tag.parsed = ctorName then (acc1.1, true) else acc1) acc).2
      = true := by
  induction tags generalizing acc with
  | nil => exact h
  | cons t ts ih =>
    apply ih
    by_cases h1 : t.parsed = implName <;> by_cases h2 : t.parsed = clsName ∨ t.parsed = ctorName <;>
      simp [h1, h2, h]

/-- A class or constructor tag anywhere in the tag list sets the flag. -/
theorem scan_inner_sets (implName clsName ctorName : String) (tags : List JSDocTag)
    (acc : Option Span × Bool)
    (h : ∃ t ∈ tags, t.parsed = clsName ∨ t.parsed = ctorName) :
    (tags.foldl (fun acc tag =>
      let acc1 := if tag.parsed = implName then (some tag.span, acc.2) else acc
      if tag.parsed = clsName ∨ tag.parsed = ctorName then (acc1.1, true) else acc1) acc).2
      = true := by
  induction tags generalizing acc with
  | nil =>
    rcases h with ⟨t, ht, _⟩
    exact absurd ht (List.not_mem_nil t)
  | cons t ts ih =>
    rcases h with ⟨u, hu, hcase⟩
    rcases List.mem_cons.mp hu with rfl | hu2
    · rw [List.foldl_cons]
      apply scan_inner_mono
      simp [hcase]
    · exact ih _ ⟨u, hu2, hcase⟩

/-- The outer JSDoc fold of the scan never clears the
class-or-constructor flag. -/
theorem scan_outer_mono (implName clsName ctorName : String)
    (jsdocs : List (List JSDocTag)) (acc : Option Span × Bool) (h : acc.2 = true) :
    (jsdocs.foldl (fun acc jsdoc =>
      jsdoc.foldl (fun acc tag =>
        let acc1 := if tag.parsed = implName then (some tag.span, acc.2) else acc
        if tag.parsed = clsName ∨ tag.parsed = ctorName then (acc1.1, true) else acc1) acc)
      acc).2 = true := by
  induction jsdocs generalizing acc with
  | nil => exact h
  | cons jd jds ih =>
    exact ih _ (scan_inner_mono implName clsName ctorName jd acc h)

/-- The outer JSDoc fold sets the flag when some JSDoc holds a class or
constructor tag, from any starting accumulator. -/
theorem scan_outer_sets (implName clsName ctorName : String)
    (jsdocs : List (List JSDocTag)) (acc : Option Span × Bool)
    (h : ∃ jd ∈ jsdocs, ∃ t ∈ jd, t.parsed = clsName ∨ t.parsed = ctorName) :
    (jsdocs.foldl (fun acc jsdoc =>
      jsdoc.foldl (fun acc tag =>
        let acc1 := if tag.parsed = implName then (some tag.span, acc.2) else acc
        if tag.parsed = clsName ∨ tag.parsed = ctorName then (acc1.1, true) else acc1) acc)
      acc).2 = true := by
  induction jsdocs generalizing acc with
  | nil =>
    rcases h with ⟨jd, hjd, _⟩
    exact absurd hjd (List.not_mem_nil jd)
  | cons jd jds ih =>
    rcases h with ⟨u, hu, hcase⟩
    rcases List.mem_cons.mp hu with rfl | hu2
    · exact scan_outer_mono implName clsName ctorName jds _
        (scan_inner_sets implName clsName ctorName u acc hcase)
    · exact ih _ ⟨u, hu2, hcase⟩

/-- A class or constructor tag in any of the node's JSDocs makes the scan
return a set class-or-constructor flag. -/
theorem scan_sets (jsdocs : List (List JSDocTag)) (implName clsName ctorName : String)
    (h : ∃ jd ∈ jsdocs, ∃ t ∈ jd, t.parsed = clsName ∨ t.parsed = ctorName) :
    (implementsOnClassesScan jsdocs implName clsName ctorName).2 = true := by
  unfold implementsOnClassesScan
  exact scan_outer_sets implName clsName ctorName jsdocs (none, false) h

/-- C8: for a function-definition node carrying a JSDoc whose only tag is
an implements tag (the resolved tag names being the defaults), the rule
appends exactly one diagnostic, labeled at the implements tag's span; and
whenever any JSDoc of the node also holds a class or constructor tag, no
diagnostic is reported. -/
theorem implements_on_classes_behavior (sp : Span) (ctx : LintContext)
    (jsdocs : List (List JSDocTag))
    (hdir : ∀ r s, ctx.disable_directives r s = false)
    (hsev : ctx.severity = Severity.Warning)
    (hcls : ∃ jd ∈ jsdocs, ∃ t ∈ jd, t.parsed = "class" ∨ t.parsed = "constructor") :
    implementsOnClassesRun [[⟨"implements", sp⟩]] "implements" "class" "constructor" ctx
      = { ctx with diagnostics :=
            ctx.diagnostics ++ [Message.new (implementsOnClassesDiagnostic sp) none] }
    ∧ implementsOnClassesRun jsdocs "implements" "class" "constructor" ctx = ctx := by
  constructor
  · have hscan : implementsOnClassesScan [[⟨"implements", sp⟩]] "implements" "class" "constructor"
        = (some sp, false) := by
      rfl
    have hrun : implementsOnClassesRun [[⟨"implements", sp⟩]] "implements" "class" "constructor"
        ctx = ctx.diagnostic (implementsOnClassesDiagnostic sp) := by
      unfold implementsOnClassesRun
      rw [hscan]
    rw [hrun]
    unfold LintContext.diagnostic LintContext.add_diagnostic
    rw [hdir]
    rw [if_pos (by rfl)]
    rw [if_neg (by rw [hsev]; exact fun hne => hne rfl)]
  · have hsnd := scan_sets jsdocs "implements" "class" "constructor" hcls
    unfold implementsOnClassesRun
    rcases hscan : implementsOnClassesScan jsdocs "implements" "class" "constructor" with ⟨os, b⟩
    rw [hscan] at hsnd
    cases b
    · exact absurd hsnd (by exact Bool.false_ne_true)
    · cases os <;> rfl

/-- Witness for C8 at concrete inputs: one JSDoc with only an implements
tag yields one diagnostic at that tag's span; adding a class tag yields
none. -/
theorem implements_on_classes_witness :
    (implementsOnClassesRun [[⟨"implements", ⟨4, 19⟩⟩]] "implements" "class" "constructor"
        (LintContext.new "a.js" (fun _ _ => false))).diagnostics
      = [Message.new (implementsOnClassesDiagnostic ⟨4, 19⟩) none]
    ∧ implementsOnClassesRun [[⟨"implements", ⟨4, 19⟩⟩, ⟨"class", ⟨20, 26⟩⟩]] "implements"
        "class" "constructor" (LintContext.new "a.js" (fun _ _ => false))
      = LintContext.new "a.js" (fun _ _ => false) := by
  have h := implements_on_classes_behavior ⟨4, 19⟩ (LintContext.new "a.js" (fun _ _ => false))
    [[⟨"implements", ⟨4, 19⟩⟩, ⟨"class", ⟨20, 26⟩⟩]] (fun r s => rfl) rfl
    ⟨[⟨"implements", ⟨4, 19⟩⟩, ⟨"class", ⟨20, 26⟩⟩], List.Mem.head _,
      ⟨"class", ⟨20, 26⟩⟩, List.Mem.tail _ (List.Mem.head _), Or.inl rfl⟩
  refine ⟨?_, h.2⟩
  rw [h.1]
  rfl

/-- C10: `into_source_text` moves the buffer out, leaving it empty, so an
immediately following second call returns the empty string. -/
theorem into_source_text_take (s : Codegen) :
    (s.into_source_text).2.code = []
    ∧ ((s.into_source_text).2.into_source_text).1 = "" := by
  exact ⟨rfl, rfl⟩

/-- C7: a build whose every buffer write is an ASCII byte, a valid UTF-8
slice, or an ASCII escape sequence — the discipline the spec states for
all write paths — leaves the output buffer valid UTF-8, so the unchecked
conversion in `into_source_text` is applied to valid UTF-8 bytes. -/
theorem build_buffer_utf8 (ws : List CodegenWrite) (h : ∀ w ∈ ws, w.ok = true) :
    utf8Valid (runWrites ws) = true := by
  have hgen : ∀ (ws : List CodegenWrite), (∀ w ∈ ws, w.ok = true) →
      ∀ buf, utf8Valid buf = true →
      utf8Valid (ws.foldl (fun buf w => buf ++ w.bytes) buf) = true := by
    intro ws
    induction ws with
    | nil =>
      intro _ buf hb
      exact hb
    | cons w ws ih =>
      intro hws buf hb
      rw [List.foldl_cons]
      exact ih (fun u hu => hws u (List.Mem.tail _ hu)) (buf ++ w.bytes)
        (utf8Valid_append buf w.bytes hb (writeBytes_valid w (hws w (List.Mem.head _))))
  exact hgen ws h [] rfl

/-- Witness for C7 at a concrete write trace: an ASCII byte, a two-byte
UTF-8 slice, and a six-byte ASCII escape sequence. -/
theorem build_buffer_utf8_witness :
    utf8Valid (runWrites [CodegenWrite.asciiByte 97, CodegenWrite.utf8Slice [195, 169],
      CodegenWrite.escapeSeq [92, 117, 50, 48, 50, 56]]) = true := by
  exact build_buffer_utf8
    [CodegenWrite.asciiByte 97, CodegenWrite.utf8Slice [195, 169],
      CodegenWrite.escapeSeq [92, 117, 50, 48, 50, 56]]
    (by decide)

end Oxc
